import Mathlib

/-!
Verification of the 3-2-5 (Teen Do Paanch) card-game logic.

The definitions below are a shallow embedding of the TypeScript sources
`src/lib/gameLogic.ts` and the game-controller component (`Game.tsx`):
pure functions are translated to Lean functions, the stateful round-end
and card-pull handlers to explicit state-passing functions, and fallible
code to `Option`-returning functions.  JavaScript numbers are modelled as
`Int` (scores, trick differences) or `Nat` (array indices, seat
positions); JavaScript `null` as `Option`.
-/

/-- Suit of a card, from the `Suit` union type. -/
inductive Suit where
  | spades
  | hearts
  | diamonds
  | clubs
deriving DecidableEq, Repr

/-- Rank of a card, from the `Rank` union type (`ten` is the literal `'10'`). -/
inductive Rank where
  | A
  | K
  | Q
  | J
  | ten
  | nine
  | eight
  | seven
deriving DecidableEq, Repr, Fintype

/-- A playing card, from `interface Card`. -/
structure Card where
  suit : Suit
  rank : Rank
deriving DecidableEq, Repr

instance : Inhabited Card := ⟨⟨Suit.spades, Rank.A⟩⟩

/-- One play of a trick: the entries of the `cardsPlayed` array,
`{ position: number; card: Card }`. -/
structure Play where
  position : Nat
  card : Card
deriving DecidableEq, Repr

/-- Card rank values for comparison (Ace high), from `rankValues`. -/
def rankValues : Rank → Nat
  | Rank.A => 14
  | Rank.K => 13
  | Rank.Q => 12
  | Rank.J => 11
  | Rank.ten => 10
  | Rank.nine => 9
  | Rank.eight => 8
  | Rank.seven => 7

/-- The 30-card deck, from `createDeck`: `A`–`8` of every suit, then the
7 of spades and the 7 of hearts. -/
def createDeck : List Card :=
  let suits := [Suit.spades, Suit.hearts, Suit.diamonds, Suit.clubs]
  let ranks := [Rank.A, Rank.K, Rank.Q, Rank.J, Rank.ten, Rank.nine, Rank.eight]
  (suits.flatMap fun suit => ranks.map fun rank => ⟨suit, rank⟩)
    ++ [⟨Suit.spades, Rank.seven⟩, ⟨Suit.hearts, Rank.seven⟩]

/-- Loop body of `evaluateTrick`: given the current `(winningIndex, winningCard)`
state (represented by the winning play itself) and the next play, decide whether
the next play takes over.  The three guarded branches are the source's
trump-beats-non-trump, trump-versus-trump and follow-lead-suit cases. -/
def updateWinner (trump : Option Suit) (leadSuit : Suit)
    (winningPlay : Play) (p : Play) : Play :=
  let currentCard := p.card
  let winningCard := winningPlay.card
  if trump = some currentCard.suit ∧ ¬ trump = some winningCard.suit then
    p
  else if trump = some currentCard.suit ∧ trump = some winningCard.suit then
    if rankValues currentCard.rank > rankValues winningCard.rank then p else winningPlay
  else if currentCard.suit = leadSuit ∧ winningCard.suit = leadSuit
      ∧ ¬ some winningCard.suit = trump then
    if rankValues currentCard.rank > rankValues winningCard.rank then p else winningPlay
  else
    winningPlay

/-- Determines the winner of a trick, from `evaluateTrick`: returns `-1` on an
empty trick, otherwise folds `updateWinner` over the plays after the first and
returns the final winning play's position. -/
def evaluateTrick (cardsPlayed : List Play) (trump : Option Suit) : Int :=
  match cardsPlayed with
  | [] => -1
  | first :: rest =>
    let leadSuit := first.card.suit
    ((rest.foldl (updateWinner trump leadSuit) first).position : Int)

/-- The running winner is a trump card of maximal rank among the trump cards
seen so far. -/
def isTrumpMax (t : Suit) (l : List Play) (W : Play) : Prop :=
  W.card.suit = t ∧
    ∀ q ∈ l, q.card.suit = t → rankValues q.card.rank ≤ rankValues W.card.rank

/-- No trump card has been seen so far and the running winner is a card of the
lead suit `s` of maximal rank among the lead-suit cards seen so far. -/
def isLeadMax (t s : Suit) (l : List Play) (W : Play) : Prop :=
  W.card.suit = s ∧ (∀ q ∈ l, q.card.suit ≠ t) ∧
    ∀ q ∈ l, q.card.suit = s → rankValues q.card.rank ≤ rankValues W.card.rank

/-- Loop invariant of `evaluateTrick`: the running winner is one of the plays
seen so far and is either the best trump or, if no trump was seen, the best
lead-suit card. -/
def winnerInv (t s : Suit) (l : List Play) (W : Play) : Prop :=
  W ∈ l ∧ (isTrumpMax t l W ∨ isLeadMax t s l W)

/-- Result of a validation, `{ valid: boolean; reason?: string }`. -/
structure MoveCheck where
  valid : Bool
  reason : Option String
deriving DecidableEq, Repr

/-- Check if player has any cards of a specific suit, from `hasCardsOfSuit`. -/
def hasCardsOfSuit (hand : List Card) (suit : Suit) : Bool :=
  hand.any fun c => c.suit == suit

/-- Check if player is following suit, from `isFollowingSuit`. -/
def isFollowingSuit (card : Card) (leadSuit : Suit) : Bool :=
  card.suit == leadSuit

/-- Trump-leading rules for tricks after the first, from
`validateTrumpLeadingRules`: if trump was led at the start of the round the
player must lead trump when holding any, otherwise the player cannot lead
trump while holding a non-trump card. -/
def validateTrumpLeadingRules (card : Card) (hand : List Card) (trump : Suit)
    (trumpLedAtStart : Option Bool) : MoveCheck :=
  let isPlayingTrump := card.suit == trump
  let hasTrump := hasCardsOfSuit hand trump
  let hasNonTrump := hand.any fun c => c.suit != trump
  if trumpLedAtStart = some true then
    if !isPlayingTrump && hasTrump then
      ⟨false, some ("Must lead trump (trump was led in first trick)")⟩
    else ⟨true, none⟩
  else
    if isPlayingTrump && hasNonTrump then
      ⟨false, some ("Cannot lead with trump unless you have no other cards")⟩
    else ⟨true, none⟩

/-- Validates if playing a card is legal, from `isValidMove`: when leading,
the first trick is unrestricted and later tricks obey the trump-leading rules
(when a trump suit is set); when following, the card must follow the lead suit
if the hand can. -/
def isValidMove (card : Card) (hand : List Card) (currentTrick : List Play)
    (trump : Option Suit) (trickIndex : Nat) (trumpLedAtStart : Option Bool) :
    MoveCheck :=
  match currentTrick with
  | [] =>
    if trickIndex = 0 then ⟨true, none⟩
    else
      match trump with
      | some t => validateTrumpLeadingRules card hand t trumpLedAtStart
      | none => ⟨true, none⟩
  | firstPlay :: _ =>
    let leadSuit := firstPlay.card.suit
    if hasCardsOfSuit hand leadSuit && !(isFollowingSuit card leadSuit) then
      ⟨false, some ("Must follow suit")⟩
    else ⟨true, none⟩

/-- String form of a rank, the interpolation of `returnCard.rank`. -/
def rankToString : Rank → String
  | Rank.A => "A"
  | Rank.K => "K"
  | Rank.Q => "Q"
  | Rank.J => "J"
  | Rank.ten => "10"
  | Rank.nine => "9"
  | Rank.eight => "8"
  | Rank.seven => "7"

/-- String form of a suit, the interpolation of `returnCard.suit`. -/
def suitToString : Suit → String
  | Suit.spades => "♠"
  | Suit.hearts => "♥"
  | Suit.diamonds => "♦"
  | Suit.clubs => "♣"

/-- Validates if a card can be returned during card pull, from
`canReturnCard`: the exact pulled card and any card of the pulled card's suit
are always legal; a different suit is legal only when at least 2 cards of
that suit remain after returning one. -/
def canReturnCard (returnCard pulledCard : Card) (currentHand : List Card) :
    MoveCheck :=
  let isSameCard := returnCard.suit == pulledCard.suit
      && returnCard.rank == pulledCard.rank
  let isSameSuit := returnCard.suit == pulledCard.suit
  if isSameCard then ⟨true, none⟩
  else if isSameSuit then ⟨true, none⟩
  else
    let cardsOfReturnSuit := currentHand.filter fun c => c.suit == returnCard.suit
    let cardsRemainingAfterReturn : Int := (cardsOfReturnSuit.length : Int) - 1
    if cardsRemainingAfterReturn ≥ 2 then ⟨true, none⟩
    else
      ⟨false, some ("Cannot return " ++ rankToString returnCard.rank
        ++ suitToString returnCard.suit ++ ": must keep at least 2 cards of "
        ++ suitToString returnCard.suit)⟩

/-- Returns all cards from hand that can be legally returned, from
`getValidReturnCards`. -/
def getValidReturnCards (pulledCard : Card) (currentHand : List Card) :
    List Card :=
  currentHand.filter fun card => (canReturnCard card pulledCard currentHand).valid

/-- Previous round result for calculating card pull eligibility, from
`interface PreviousRoundResult`. -/
structure PreviousRoundResult where
  position : Nat
  tricksWon : Int
  targetTricks : Int
deriving DecidableEq, Repr

/-- A player who over-achieved and gets to pull cards, from `interface Puller`. -/
structure Puller where
  position : Nat
  extraTricks : Int
  pullsRemaining : Int
deriving DecidableEq, Repr

/-- A player who under-achieved and loses cards, from `interface UnderScorer`. -/
structure UnderScorer where
  position : Nat
deriving DecidableEq, Repr

/-- The sort comparator used on over-scorers in `calculatePullEligibility`:
descending by extra tricks, ties broken by ascending clockwise distance from
the dealer `(position - dealerIndex + 3) % 3` (JavaScript `%` is the
truncating remainder, `Int.tmod`). -/
def pullComparator (dealerIndex : Nat) (a b : Puller) : Int :=
  if b.extraTricks ≠ a.extraTricks then b.extraTricks - a.extraTricks
  else
    (((a.position : Int) - (dealerIndex : Int) + 3).tmod 3)
      - (((b.position : Int) - (dealerIndex : Int) + 3).tmod 3)

/-- Boolean ordering induced by `pullComparator`: `a` may come before `b`
exactly when the comparator is non-positive. -/
def pullLe (dealerIndex : Nat) (a b : Puller) : Bool :=
  decide (pullComparator dealerIndex a b ≤ 0)

/-- Determines over-scorers and under-scorers, from
`calculatePullEligibility`: positive difference becomes a puller with one
pull per extra trick, negative difference an under-scorer, and the pullers
are sorted by the comparator. -/
def calculatePullEligibility (previousResults : List PreviousRoundResult)
    (dealerIndex : Nat) : List Puller × List UnderScorer :=
  let overScorers := previousResults.filterMap fun r =>
    let diff := r.tricksWon - r.targetTricks
    if 0 < diff then some ⟨r.position, diff, diff⟩ else none
  let underScorers := previousResults.filterMap fun r =>
    if r.tricksWon - r.targetTricks < 0 then some ⟨r.position⟩ else none
  (overScorers.mergeSort (pullLe dealerIndex), underScorers)

/-- A player row as used by `handleRoundEnd`: position, this round's tricks
and target, and the cumulative overachievement score. -/
structure PlayerState where
  position : Nat
  tricksWon : Int
  targetTricks : Int
  overachievementScore : Int
deriving DecidableEq, Repr

/-- The room row fields touched by `handleRoundEnd`. -/
structure RoomState where
  dealerIndex : Nat
  roundNumber : Int
  status : String
  dealingPhase : String
  previousRoundResults : Option (List PreviousRoundResult)
deriving DecidableEq, Repr

/-- Round end, from `handleRoundEnd` in the game controller: compute each
player's updated cumulative score in memory and look for a winner with score
at least 5.  With a winner, only the room's status and dealing phase are
written (the players' stored scores are left untouched by the early return);
otherwise the updated scores are stored, the dealer rotates to
`(dealerIndex + 1) % 3`, the round number increments and the round results
are saved for the card pull. -/
def handleRoundEnd (players : List PlayerState) (room : RoomState) :
    List PlayerState × RoomState :=
  match (players.map fun p =>
      { p with overachievementScore :=
          p.overachievementScore + (p.tricksWon - p.targetTricks) }).find?
      (fun p => decide (5 ≤ p.overachievementScore)) with
  | some _ =>
    (players, { room with status := "finished", dealingPhase := "finished" })
  | none =>
    ((players.map fun p =>
        { p with overachievementScore :=
            p.overachievementScore + (p.tricksWon - p.targetTricks) }),
      { room with
          dealerIndex := (room.dealerIndex + 1) % 3,
          roundNumber := room.roundNumber + 1,
          dealingPhase := "redistribution",
          status := "redistribution",
          previousRoundResults :=
            some (players.map fun p => ⟨p.position, p.tricksWon, p.targetTricks⟩) })

/-- Card pull phase state machine, from `type CardPullPhase`. -/
inductive CardPullPhase where
  | selecting_target
  | selecting_card
  | returning_card
  | complete
deriving DecidableEq, Repr

/-- Complete state of the card pull process, from `interface CardPullState`. -/
structure CardPullState where
  pullers : List Puller
  underScorers : List UnderScorer
  currentPullerIndex : Nat
  phase : CardPullPhase
  selectedTarget : Option Nat
  pulledCard : Option Card
  pulledCardIndex : Option Nat
deriving DecidableEq, Repr

/-- What `handleReturnCard` writes on success: the puller's and the target's
new hands, the room's new card-pull state (`none` models the SQL `null`), and
whether the room moved to the `playing` status. -/
structure ReturnCardOutcome where
  pullerNewHand : List Card
  targetNewHand : List Card
  cardPullState : Option CardPullState
  movedToPlaying : Bool
deriving DecidableEq, Repr

/-- Return-card step of the pull protocol, from `handleReturnCard` in the game
controller: guards (wrong phase, missing pulled card or target, invalid
return card, out-of-range puller index) yield `none`; otherwise the pulled
and returned cards are swapped between the two hands, the current puller's
`pullsRemaining` is decremented, and the next phase is chosen: same puller
again, next puller, or done (card-pull state cleared, room set to playing). -/
def handleReturnCard (cardPullState : CardPullState) (hand targetHand : List Card)
    (returnCard : Card) : Option ReturnCardOutcome :=
  match cardPullState.phase, cardPullState.pulledCard, cardPullState.selectedTarget with
  | CardPullPhase.returning_card, some pulledCard, some _ =>
    match cardPullState.pullers.get? cardPullState.currentPullerIndex with
    | none => none
    | some currentPuller =>
      if (canReturnCard returnCard pulledCard hand).valid then
        let pullerNewHand := (hand.filter fun c =>
          !(c.suit == returnCard.suit && c.rank == returnCard.rank)) ++ [pulledCard]
        let targetNewHand := (targetHand.filter fun c =>
          !(c.suit == pulledCard.suit && c.rank == pulledCard.rank)) ++ [returnCard]
        let updatedPuller :=
          { currentPuller with pullsRemaining := currentPuller.pullsRemaining - 1 }
        let updatedPullers :=
          cardPullState.pullers.set cardPullState.currentPullerIndex updatedPuller
        if 0 < updatedPuller.pullsRemaining then
          some ⟨pullerNewHand, targetNewHand,
            some { cardPullState with
              pullers := updatedPullers,
              phase := CardPullPhase.selecting_target,
              selectedTarget := none,
              pulledCard := none,
              pulledCardIndex := none }, false⟩
        else if cardPullState.currentPullerIndex + 1 < updatedPullers.length then
          some ⟨pullerNewHand, targetNewHand,
            some { cardPullState with
              pullers := updatedPullers,
              currentPullerIndex := cardPullState.currentPullerIndex + 1,
              phase := CardPullPhase.selecting_target,
              selectedTarget := none,
              pulledCard := none,
              pulledCardIndex := none }, false⟩
        else
          some ⟨pullerNewHand, targetNewHand, none, true⟩
      else none
  | _, _, _ => none

/-- The full outcome that C8 asserts for a legal return: the two hands swap
the pulled and the returned card with sizes unchanged, the current puller's
`pullsRemaining` decreases by 1, and the next card-pull state is
selecting-target for the same puller, selecting-target for the next puller,
or absent with the room moved to playing. -/
def returnCardOutcomeSpec (cps : CardPullState) (hand targetHand : List Card)
    (returnCard pulledCard : Card) (currentPuller : Puller) : Prop :=
  ∃ res, handleReturnCard cps hand targetHand returnCard = some res ∧
    (res.pullerNewHand : Multiset Card)
      = (hand : Multiset Card) - {returnCard} + {pulledCard} ∧
    (res.targetNewHand : Multiset Card)
      = (targetHand : Multiset Card) - {pulledCard} + {returnCard} ∧
    res.pullerNewHand.length = hand.length ∧
    res.targetNewHand.length = targetHand.length ∧
    (∀ st, res.cardPullState = some st →
      st.pullers.get? cps.currentPullerIndex =
        some { currentPuller with
          pullsRemaining := currentPuller.pullsRemaining - 1 }) ∧
    (0 < currentPuller.pullsRemaining - 1 →
      ∃ st, res.cardPullState = some st ∧
        st.phase = CardPullPhase.selecting_target ∧
        st.currentPullerIndex = cps.currentPullerIndex ∧
        st.selectedTarget = none ∧ st.pulledCard = none ∧
        res.movedToPlaying = false) ∧
    (currentPuller.pullsRemaining - 1 ≤ 0 →
      cps.currentPullerIndex + 1 < cps.pullers.length →
      ∃ st, res.cardPullState = some st ∧
        st.phase = CardPullPhase.selecting_target ∧
        st.currentPullerIndex = cps.currentPullerIndex + 1 ∧
        st.selectedTarget = none ∧ st.pulledCard = none ∧
        res.movedToPlaying = false) ∧
    (currentPuller.pullsRemaining - 1 ≤ 0 →
      ¬ cps.currentPullerIndex + 1 < cps.pullers.length →
      res.cardPullState = none ∧ res.movedToPlaying = true)

/-- Single-batch deal of 10 cards to seat `p`, from `dealCards`:
`hands[player].push(deck[i * 3 + player])` for `i = 0..9`. -/
def batchHand (deck : List Card) (p : Nat) : List Card :=
  (List.range 10).map fun i => deck.getD (i * 3 + p) default

/-- Deal 10 cards to each of 3 players, from `dealCards` (the shuffle is the
caller's `deck` argument here). -/
def dealCards (deck : List Card) : List (List Card) :=
  [batchHand deck 0, batchHand deck 1, batchHand deck 2]

/-- First dealing stage, from `handleStartGame`: 5 cards per seat,
`deck[i * 3 + player]` for `i = 0..4`. -/
def firstFiveHand (deck : List Card) (p : Nat) : List Card :=
  (List.range 5).map fun i => deck.getD (i * 3 + p) default

/-- Second dealing stage, from `handleSelectTrump`: 3 more cards per seat out
of the stored `remainingCards` (`deck.slice(15)`). -/
def nextThreeHand (remainingCards : List Card) (p : Nat) : List Card :=
  (List.range 3).map fun i => remainingCards.getD (i * 3 + p) default

/-- Third dealing stage, from `handleDealFinalCards`: 2 final cards per seat
out of the stored `remainingCards` (`remainingCards.slice(9)` of stage 2). -/
def finalTwoHand (remainingCards : List Card) (p : Nat) : List Card :=
  (List.range 2).map fun i => remainingCards.getD (i * 3 + p) default

/-- The complete hand seat `p` accumulates over the three dealing stages. -/
def threeStageHand (deck : List Card) (p : Nat) : List Card :=
  firstFiveHand deck p ++ nextThreeHand (deck.drop 15) p
    ++ finalTwoHand ((deck.drop 15).drop 9) p

example :
    evaluateTrick
      [⟨0, ⟨Suit.spades, Rank.K⟩⟩, ⟨1, ⟨Suit.spades, Rank.A⟩⟩, ⟨2, ⟨Suit.hearts, Rank.A⟩⟩]
      (some Suit.diamonds) = 1 := by decide

example :
    evaluateTrick
      [⟨0, ⟨Suit.spades, Rank.K⟩⟩, ⟨1, ⟨Suit.spades, Rank.A⟩⟩, ⟨2, ⟨Suit.diamonds, Rank.seven⟩⟩]
      (some Suit.diamonds) = 2 := by decide

theorem winnerInv_base (t : Suit) (first : Play) :
    winnerInv t first.card.suit [first] first := by
  refine ⟨List.mem_singleton_self _, ?_⟩
  by_cases h : first.card.suit = t
  · left
    exact ⟨h, by intro q hq _; rw [List.mem_singleton] at hq; subst hq; exact le_refl _⟩
  · right
    refine ⟨rfl, ?_, ?_⟩
    · intro q hq; rw [List.mem_singleton] at hq; subst hq; exact h
    · intro q hq _; rw [List.mem_singleton] at hq; subst hq; exact le_refl _

theorem winnerInv_step (t s : Suit) (l : List Play) (W p : Play)
    (h : winnerInv t s l W) :
    winnerInv t s (l ++ [p]) (updateWinner (some t) s W p) := by
  obtain ⟨hmem, hbest⟩ := h
  have hmem' : W ∈ l ++ [p] := List.mem_append_left _ hmem
  have hpmem : p ∈ l ++ [p] := List.mem_append_right _ (List.mem_singleton_self _)
  unfold updateWinner
  simp only [Option.some.injEq]
  split_ifs with h1 h2 h3 h4 h5 <;> simp only [winnerInv]
  · -- branch 1: p is trump, W is not
    obtain ⟨hpt, hWt⟩ := h1
    have hnone : ∀ q ∈ l, q.card.suit ≠ t := by
      rcases hbest with htm | hlm
      · exact absurd htm.1.symm hWt
      · exact hlm.2.1
    refine ⟨hpmem, Or.inl ⟨hpt.symm, ?_⟩⟩
    intro q hq hqt
    rcases List.mem_append.1 hq with hql | hqp
    · exact absurd hqt (hnone q hql)
    · rw [List.mem_singleton] at hqp; subst hqp; exact le_refl _
  · -- branch 2: both trump, p has the higher rank
    obtain ⟨hpt, hWt⟩ := h2
    have htm : isTrumpMax t l W := by
      rcases hbest with htm | hlm
      · exact htm
      · exact absurd hWt.symm (hlm.2.1 W hmem)
    refine ⟨hpmem, Or.inl ⟨hpt.symm, ?_⟩⟩
    intro q hq hqt
    rcases List.mem_append.1 hq with hql | hqp
    · exact le_trans (htm.2 q hql hqt) (le_of_lt h3)
    · rw [List.mem_singleton] at hqp; subst hqp; exact le_refl _
  · -- branch 3: both trump, p does not have a higher rank
    obtain ⟨hpt, hWt⟩ := h2
    have htm : isTrumpMax t l W := by
      rcases hbest with htm | hlm
      · exact htm
      · exact absurd hWt.symm (hlm.2.1 W hmem)
    refine ⟨hmem', Or.inl ⟨htm.1, ?_⟩⟩
    intro q hq hqt
    rcases List.mem_append.1 hq with hql | hqp
    · exact htm.2 q hql hqt
    · rw [List.mem_singleton] at hqp; subst hqp; exact le_of_not_lt h3
  · -- branch 4: both lead suit, no trump yet, p has the higher rank
    obtain ⟨hps, hWs, hWnt⟩ := h4
    have hlm : isLeadMax t s l W := by
      rcases hbest with htm | hlm
      · exact absurd htm.1 hWnt
      · exact hlm
    have hpnt : p.card.suit ≠ t := fun hh => h1 ⟨hh.symm, fun hc => hWnt hc.symm⟩
    refine ⟨hpmem, Or.inr ⟨hps, ?_, ?_⟩⟩
    · intro q hq
      rcases List.mem_append.1 hq with hql | hqp
      · exact hlm.2.1 q hql
      · rw [List.mem_singleton] at hqp; subst hqp; exact hpnt
    · intro q hq hqs
      rcases List.mem_append.1 hq with hql | hqp
      · exact le_trans (hlm.2.2 q hql hqs) (le_of_lt h5)
      · rw [List.mem_singleton] at hqp; subst hqp; exact le_refl _
  · -- branch 5: both lead suit, no trump yet, p does not have a higher rank
    obtain ⟨hps, hWs, hWnt⟩ := h4
    have hlm : isLeadMax t s l W := by
      rcases hbest with htm | hlm
      · exact absurd htm.1 hWnt
      · exact hlm
    have hpnt : p.card.suit ≠ t := fun hh => h1 ⟨hh.symm, fun hc => hWnt hc.symm⟩
    refine ⟨hmem', Or.inr ⟨hWs, ?_, ?_⟩⟩
    · intro q hq
      rcases List.mem_append.1 hq with hql | hqp
      · exact hlm.2.1 q hql
      · rw [List.mem_singleton] at hqp; subst hqp; exact hpnt
    · intro q hq hqs
      rcases List.mem_append.1 hq with hql | hqp
      · exact hlm.2.2 q hql hqs
      · rw [List.mem_singleton] at hqp; subst hqp; exact le_of_not_lt h5
  · -- branch 6: no condition fired, the winner is unchanged
    refine ⟨hmem', ?_⟩
    rcases hbest with htm | hlm
    · left
      refine ⟨htm.1, ?_⟩
      intro q hq hqt
      rcases List.mem_append.1 hq with hql | hqp
      · exact htm.2 q hql hqt
      · rw [List.mem_singleton] at hqp; subst hqp
        exact absurd ⟨hqt.symm, htm.1.symm⟩ h2
    · right
      have hWnt : W.card.suit ≠ t := hlm.2.1 W hmem
      have hpnt : p.card.suit ≠ t := fun hh => h1 ⟨hh.symm, fun hc => hWnt hc.symm⟩
      have hpns : p.card.suit ≠ s := by
        intro hh
        exact h4 ⟨hh, hlm.1, hWnt⟩
      refine ⟨hlm.1, ?_, ?_⟩
      · intro q hq
        rcases List.mem_append.1 hq with hql | hqp
        · exact hlm.2.1 q hql
        · rw [List.mem_singleton] at hqp; subst hqp; exact hpnt
      · intro q hq hqs
        rcases List.mem_append.1 hq with hql | hqp
        · exact hlm.2.2 q hql hqs
        · rw [List.mem_singleton] at hqp; subst hqp; exact absurd hqs hpns

theorem winnerInv_foldl (t s : Suit) :
    ∀ (ps l : List Play) (W : Play), winnerInv t s l W →
      winnerInv t s (l ++ ps) (ps.foldl (updateWinner (some t) s) W)
  | [], l, W, h => by simpa using h
  | p :: ps, l, W, h => by
    have h' := winnerInv_step t s l W p h
    have h'' := winnerInv_foldl t s ps (l ++ [p]) (updateWinner (some t) s W p) h'
    simpa [List.append_assoc] using h''

theorem evaluateTrick_inv (first : Play) (rest : List Play) (t : Suit) :
    ∃ W, winnerInv t first.card.suit (first :: rest) W ∧
      evaluateTrick (first :: rest) (some t) = (W.position : Int) := by
  refine ⟨rest.foldl (updateWinner (some t) first.card.suit) first, ?_, rfl⟩
  have h := winnerInv_foldl t first.card.suit rest [first] first (winnerInv_base t first)
  simpa using h

theorem rankValues_inj : ∀ r r' : Rank, rankValues r = rankValues r' → r = r' := by
  decide

/-- Two plays of a trick with duplicate-free cards, the same suit and the same
rank value are the same play. -/
theorem winner_unique (l : List Play) (hnd : (l.map Play.card).Nodup)
    (a b : Play) (ha : a ∈ l) (hb : b ∈ l)
    (hsuit : a.card.suit = b.card.suit)
    (hrank : rankValues a.card.rank = rankValues b.card.rank) : a = b := by
  have hr : a.card.rank = b.card.rank := rankValues_inj _ _ hrank
  have hcard : a.card = b.card :=
    calc a.card = ⟨a.card.suit, a.card.rank⟩ := rfl
      _ = ⟨b.card.suit, b.card.rank⟩ := by rw [hsuit, hr]
      _ = b.card := rfl
  exact List.inj_on_of_nodup_map hnd ha hb hcard

/-- C1: for a complete trick of three plays with pairwise-distinct cards and a
chosen trump suit, `evaluateTrick` returns the position of the unique play
holding the highest-ranked trump card when at least one trump card was played,
and otherwise the position of the unique play holding the highest-ranked card
of the lead suit (the suit of the first play); the winning play's card is
always trump or of the lead suit, so a play whose card is neither is never
returned as the winner. -/
theorem evaluateTrick_winner (p0 p1 p2 : Play) (t : Suit)
    (hnd : ([p0.card, p1.card, p2.card]).Nodup) :
    ∃ w ∈ [p0, p1, p2],
      evaluateTrick [p0, p1, p2] (some t) = (w.position : Int) ∧
      ((∃ q ∈ [p0, p1, p2], q.card.suit = t) →
        isTrumpMax t [p0, p1, p2] w ∧
        ∀ w' ∈ [p0, p1, p2], isTrumpMax t [p0, p1, p2] w' → w' = w) ∧
      ((∀ q ∈ [p0, p1, p2], q.card.suit ≠ t) →
        isLeadMax t p0.card.suit [p0, p1, p2] w ∧
        ∀ w' ∈ [p0, p1, p2], isLeadMax t p0.card.suit [p0, p1, p2] w' → w' = w) ∧
      (w.card.suit = t ∨ w.card.suit = p0.card.suit) := by
  have hnd' : (([p0, p1, p2] : List Play).map Play.card).Nodup := by simpa using hnd
  obtain ⟨W, ⟨hWmem, hbest⟩, heval⟩ := evaluateTrick_inv p0 [p1, p2] t
  refine ⟨W, hWmem, heval, ?_, ?_, ?_⟩
  · rintro ⟨q, hq, hqt⟩
    have htm : isTrumpMax t [p0, p1, p2] W := by
      rcases hbest with htm | hlm
      · exact htm
      · exact absurd hqt (hlm.2.1 q hq)
    refine ⟨htm, ?_⟩
    intro w' hw' hw'tm
    exact winner_unique _ hnd' w' W hw' hWmem (hw'tm.1.trans htm.1.symm)
      (le_antisymm (htm.2 w' hw' hw'tm.1) (hw'tm.2 W hWmem htm.1))
  · intro hno
    have hlm : isLeadMax t p0.card.suit [p0, p1, p2] W := by
      rcases hbest with htm | hlm
      · exact absurd htm.1 (hno W hWmem)
      · exact hlm
    refine ⟨hlm, ?_⟩
    intro w' hw' hw'lm
    exact winner_unique _ hnd' w' W hw' hWmem (hw'lm.1.trans hlm.1.symm)
      (le_antisymm (hlm.2.2 w' hw' hw'lm.1) (hw'lm.2.2 W hWmem hlm.1))
  · rcases hbest with htm | hlm
    · exact Or.inl htm.1
    · exact Or.inr hlm.1

/-- Witness for C1 at a concrete trick: ace of hearts wins a heart-trump trick
over the king of hearts and the ace of spades. -/
theorem evaluateTrick_winner_witness :
    ∃ w ∈ [(⟨0, ⟨Suit.spades, Rank.A⟩⟩ : Play), ⟨1, ⟨Suit.hearts, Rank.K⟩⟩,
        ⟨2, ⟨Suit.hearts, Rank.A⟩⟩],
      evaluateTrick [(⟨0, ⟨Suit.spades, Rank.A⟩⟩ : Play), ⟨1, ⟨Suit.hearts, Rank.K⟩⟩,
          ⟨2, ⟨Suit.hearts, Rank.A⟩⟩] (some Suit.hearts) = (w.position : Int) ∧
      ((∃ q ∈ [(⟨0, ⟨Suit.spades, Rank.A⟩⟩ : Play), ⟨1, ⟨Suit.hearts, Rank.K⟩⟩,
          ⟨2, ⟨Suit.hearts, Rank.A⟩⟩], q.card.suit = Suit.hearts) →
        isTrumpMax Suit.hearts [(⟨0, ⟨Suit.spades, Rank.A⟩⟩ : Play), ⟨1, ⟨Suit.hearts, Rank.K⟩⟩,
          ⟨2, ⟨Suit.hearts, Rank.A⟩⟩] w ∧
        ∀ w' ∈ [(⟨0, ⟨Suit.spades, Rank.A⟩⟩ : Play), ⟨1, ⟨Suit.hearts, Rank.K⟩⟩,
          ⟨2, ⟨Suit.hearts, Rank.A⟩⟩],
          isTrumpMax Suit.hearts [(⟨0, ⟨Suit.spades, Rank.A⟩⟩ : Play), ⟨1, ⟨Suit.hearts, Rank.K⟩⟩,
            ⟨2, ⟨Suit.hearts, Rank.A⟩⟩] w' → w' = w) ∧
      ((∀ q ∈ [(⟨0, ⟨Suit.spades, Rank.A⟩⟩ : Play), ⟨1, ⟨Suit.hearts, Rank.K⟩⟩,
          ⟨2, ⟨Suit.hearts, Rank.A⟩⟩], q.card.suit ≠ Suit.hearts) →
        isLeadMax Suit.hearts Suit.spades [(⟨0, ⟨Suit.spades, Rank.A⟩⟩ : Play),
          ⟨1, ⟨Suit.hearts, Rank.K⟩⟩, ⟨2, ⟨Suit.hearts, Rank.A⟩⟩] w ∧
        ∀ w' ∈ [(⟨0, ⟨Suit.spades, Rank.A⟩⟩ : Play), ⟨1, ⟨Suit.hearts, Rank.K⟩⟩,
          ⟨2, ⟨Suit.hearts, Rank.A⟩⟩],
          isLeadMax Suit.hearts Suit.spades [(⟨0, ⟨Suit.spades, Rank.A⟩⟩ : Play),
            ⟨1, ⟨Suit.hearts, Rank.K⟩⟩, ⟨2, ⟨Suit.hearts, Rank.A⟩⟩] w' → w' = w) ∧
      (w.card.suit = Suit.hearts ∨ w.card.suit = Suit.spades) :=
  evaluateTrick_winner ⟨0, ⟨Suit.spades, Rank.A⟩⟩ ⟨1, ⟨Suit.hearts, Rank.K⟩⟩
    ⟨2, ⟨Suit.hearts, Rank.A⟩⟩ Suit.hearts (by decide)

/-- C5 counterexample: when no trump card is played, the winner of a trick is
not invariant under reordering the plays, because the lead suit is the suit of
whichever play comes first.  Rotating the same three plays moves the winning
position from 0 (ace of spades leads) to 1 (ace of hearts on a heart lead). -/
theorem evaluateTrick_perm_counterexample :
    List.Perm
      [(⟨1, ⟨Suit.hearts, Rank.A⟩⟩ : Play), ⟨2, ⟨Suit.hearts, Rank.K⟩⟩,
        ⟨0, ⟨Suit.spades, Rank.A⟩⟩]
      [(⟨0, ⟨Suit.spades, Rank.A⟩⟩ : Play), ⟨1, ⟨Suit.hearts, Rank.A⟩⟩,
        ⟨2, ⟨Suit.hearts, Rank.K⟩⟩] ∧
    evaluateTrick [(⟨0, ⟨Suit.spades, Rank.A⟩⟩ : Play), ⟨1, ⟨Suit.hearts, Rank.A⟩⟩,
      ⟨2, ⟨Suit.hearts, Rank.K⟩⟩] (some Suit.diamonds) = 0 ∧
    evaluateTrick [(⟨1, ⟨Suit.hearts, Rank.A⟩⟩ : Play), ⟨2, ⟨Suit.hearts, Rank.K⟩⟩,
      ⟨0, ⟨Suit.spades, Rank.A⟩⟩] (some Suit.diamonds) = 1 := by
  refine ⟨by decide, by decide, by decide⟩

/-- C5 amended: for a trick of three plays with pairwise-distinct cards in
which at least one play's card is of the trump suit, `evaluateTrick` returns
the same winning position for every permutation of the plays. -/
theorem evaluateTrick_perm_of_trump (l l' : List Play) (t : Suit)
    (hperm : List.Perm l l') (hlen : l.length = 3)
    (hnd : (l.map Play.card).Nodup)
    (htr : ∃ q ∈ l, q.card.suit = t) :
    evaluateTrick l (some t) = evaluateTrick l' (some t) := by
  rcases l with _ | ⟨f, rest⟩
  · simp at hlen
  rcases l' with _ | ⟨f', rest'⟩
  · exact absurd hperm.eq_nil (List.cons_ne_nil f rest)
  obtain ⟨W, ⟨hWmem, hbest⟩, heval⟩ := evaluateTrick_inv f rest t
  obtain ⟨W', ⟨hW'mem, hbest'⟩, heval'⟩ := evaluateTrick_inv f' rest' t
  have htr' : ∃ q ∈ f' :: rest', q.card.suit = t := by
    obtain ⟨q, hq, hqt⟩ := htr
    exact ⟨q, hperm.mem_iff.1 hq, hqt⟩
  have htm : isTrumpMax t (f :: rest) W := by
    rcases hbest with htm | hlm
    · exact htm
    · obtain ⟨q, hq, hqt⟩ := htr
      exact absurd hqt (hlm.2.1 q hq)
  have htm' : isTrumpMax t (f' :: rest') W' := by
    rcases hbest' with htm' | hlm'
    · exact htm'
    · obtain ⟨q, hq, hqt⟩ := htr'
      exact absurd hqt (hlm'.2.1 q hq)
  have hW'memL : W' ∈ f :: rest := hperm.mem_iff.2 hW'mem
  have hWW' : W = W' := by
    refine winner_unique _ hnd W W' hWmem hW'memL (htm.1.trans htm'.1.symm) ?_
    refine le_antisymm ?_ ?_
    · exact htm'.2 W (hperm.mem_iff.1 hWmem) htm.1
    · exact htm.2 W' hW'memL htm'.1
  rw [heval, heval', hWW']

/-- Witness for the amended C5 on a rotated trick containing the 7 of
diamonds, the trump suit. -/
theorem evaluateTrick_perm_of_trump_witness :
    evaluateTrick [(⟨0, ⟨Suit.spades, Rank.A⟩⟩ : Play), ⟨1, ⟨Suit.hearts, Rank.A⟩⟩,
      ⟨2, ⟨Suit.diamonds, Rank.seven⟩⟩] (some Suit.diamonds) =
    evaluateTrick [(⟨2, ⟨Suit.diamonds, Rank.seven⟩⟩ : Play), ⟨0, ⟨Suit.spades, Rank.A⟩⟩,
      ⟨1, ⟨Suit.hearts, Rank.A⟩⟩] (some Suit.diamonds) :=
  evaluateTrick_perm_of_trump _ _ Suit.diamonds (by decide) (by decide) (by decide)
    ⟨⟨2, ⟨Suit.diamonds, Rank.seven⟩⟩, by decide, rfl⟩

theorem validateTrumpLeadingRules_led (card : Card) (hand : List Card) (t : Suit) :
    validateTrumpLeadingRules card hand t (some true) =
      if card.suit ≠ t ∧ ∃ c ∈ hand, c.suit = t then
        ⟨false, some ("Must lead trump (trump was led in first trick)")⟩
      else ⟨true, none⟩ := by
  simp only [validateTrumpLeadingRules, hasCardsOfSuit, if_pos rfl]
  by_cases h1 : card.suit = t
  · simp [h1]
  · by_cases h2 : ∃ c ∈ hand, c.suit = t
    · simp [h1, h2, List.any_eq_true]
    · simp only [List.any_eq_true, beq_iff_eq] at h2 ⊢
      simp [h1, h2]

theorem validateTrumpLeadingRules_notLed (card : Card) (hand : List Card)
    (t : Suit) (tla : Option Bool) (htla : tla ≠ some true) :
    validateTrumpLeadingRules card hand t tla =
      if card.suit = t ∧ ∃ c ∈ hand, c.suit ≠ t then
        ⟨false, some ("Cannot lead with trump unless you have no other cards")⟩
      else ⟨true, none⟩ := by
  simp only [validateTrumpLeadingRules, hasCardsOfSuit, if_neg htla]
  by_cases h1 : card.suit = t
  · by_cases h2 : ∃ c ∈ hand, c.suit ≠ t
    · simp [h1, h2, List.any_eq_true]
    · simp only [List.any_eq_true, bne_iff_ne, ne_eq] at h2 ⊢
      simp [h1, h2]
  · simp [h1]

/-- C2: when leading ("currentTrick" empty) on a trick after the first with a
trump suit set, `isValidMove` rejects a non-trump card exactly when the hand
holds a trump card if trump was led at the start, rejects a trump card exactly
when the hand holds a non-trump card if trump was not led at the start, and
accepts every lead on trick 0 or when no trump suit is set. -/
theorem isValidMove_leading (card : Card) (hand : List Card) (t : Suit)
    (trickIndex : Nat) (hmem : card ∈ hand) (hpos : 0 < trickIndex) :
    (isValidMove card hand [] (some t) trickIndex (some true) =
      if card.suit ≠ t ∧ ∃ c ∈ hand, c.suit = t then
        ⟨false, some ("Must lead trump (trump was led in first trick)")⟩
      else ⟨true, none⟩) ∧
    (isValidMove card hand [] (some t) trickIndex (some false) =
      if card.suit = t ∧ ∃ c ∈ hand, c.suit ≠ t then
        ⟨false, some ("Cannot lead with trump unless you have no other cards")⟩
      else ⟨true, none⟩) ∧
    (∀ (trump : Option Suit) (tla : Option Bool),
      isValidMove card hand [] trump 0 tla = ⟨true, none⟩) ∧
    (∀ tla : Option Bool,
      isValidMove card hand [] none trickIndex tla = ⟨true, none⟩) := by
  have hne : ¬ trickIndex = 0 := Nat.pos_iff_ne_zero.mp hpos
  refine ⟨?_, ?_, ?_, ?_⟩
  · rw [show isValidMove card hand [] (some t) trickIndex (some true) =
        validateTrumpLeadingRules card hand t (some true) by
      simp [isValidMove, hne]]
    exact validateTrumpLeadingRules_led card hand t
  · rw [show isValidMove card hand [] (some t) trickIndex (some false) =
        validateTrumpLeadingRules card hand t (some false) by
      simp [isValidMove, hne]]
    exact validateTrumpLeadingRules_notLed card hand t (some false) (by decide)
  · intro trump tla
    simp [isValidMove]
  · intro tla
    simp [isValidMove, hne]

/-- Witness for C2 with the ace of spades in a one-card hand on trick 1. -/
theorem isValidMove_leading_witness :
    (isValidMove ⟨Suit.spades, Rank.A⟩ [⟨Suit.spades, Rank.A⟩] [] (some Suit.hearts) 1
        (some true) =
      if (Suit.spades ≠ Suit.hearts ∧
          ∃ c ∈ [(⟨Suit.spades, Rank.A⟩ : Card)], c.suit = Suit.hearts) then
        ⟨false, some ("Must lead trump (trump was led in first trick)")⟩
      else ⟨true, none⟩) ∧
    (isValidMove ⟨Suit.spades, Rank.A⟩ [⟨Suit.spades, Rank.A⟩] [] (some Suit.hearts) 1
        (some false) =
      if (Suit.spades = Suit.hearts ∧
          ∃ c ∈ [(⟨Suit.spades, Rank.A⟩ : Card)], c.suit ≠ Suit.hearts) then
        ⟨false, some ("Cannot lead with trump unless you have no other cards")⟩
      else ⟨true, none⟩) ∧
    (∀ (trump : Option Suit) (tla : Option Bool),
      isValidMove ⟨Suit.spades, Rank.A⟩ [⟨Suit.spades, Rank.A⟩] [] trump 0 tla =
        ⟨true, none⟩) ∧
    (∀ tla : Option Bool,
      isValidMove ⟨Suit.spades, Rank.A⟩ [⟨Suit.spades, Rank.A⟩] [] none 1 tla =
        ⟨true, none⟩) :=
  isValidMove_leading ⟨Suit.spades, Rank.A⟩ [⟨Suit.spades, Rank.A⟩] Suit.hearts 1
    (by decide) (by decide)

/-- C3: when following in a non-empty trick, `isValidMove` rejects the card
(reason "Must follow suit") exactly when the hand holds a card of the lead
suit (the suit of the trick's first play) and the played card's suit differs
from it, for every trump suit, trick index and `trumpLedAtStart` value. -/
theorem isValidMove_following (card : Card) (hand : List Card) (firstPlay : Play)
    (rest : List Play) (trump : Option Suit) (trickIndex : Nat)
    (tla : Option Bool) :
    isValidMove card hand (firstPlay :: rest) trump trickIndex tla =
      if (∃ c ∈ hand, c.suit = firstPlay.card.suit) ∧ card.suit ≠ firstPlay.card.suit then
        ⟨false, some ("Must follow suit")⟩
      else ⟨true, none⟩ := by
  simp only [isValidMove, hasCardsOfSuit, isFollowingSuit]
  by_cases h1 : card.suit = firstPlay.card.suit
  · simp [h1]
  · by_cases h2 : ∃ c ∈ hand, c.suit = firstPlay.card.suit
    · simp [h1, h2, List.any_eq_true]
    · simp only [List.any_eq_true, beq_iff_eq] at h2 ⊢
      simp [h1, h2]

/-- C6: `canReturnCard` accepts exactly when the return card's suit equals the
pulled card's suit (including the identical card), or the suits differ and the
hand holds at least 3 cards of the return card's suit before the swap; with at
most 2 cards of a different return suit it rejects with the
keep-at-least-2 reason. -/
theorem canReturnCard_boundary (returnCard pulledCard : Card)
    (currentHand : List Card) :
    ((canReturnCard returnCard pulledCard currentHand).valid = true ↔
      (returnCard.suit = pulledCard.suit ∨
        (returnCard.suit ≠ pulledCard.suit ∧
          3 ≤ (currentHand.filter fun c => c.suit == returnCard.suit).length))) ∧
    (returnCard.suit ≠ pulledCard.suit →
      (currentHand.filter fun c => c.suit == returnCard.suit).length ≤ 2 →
      canReturnCard returnCard pulledCard currentHand =
        ⟨false, some ("Cannot return " ++ rankToString returnCard.rank
          ++ suitToString returnCard.suit ++ ": must keep at least 2 cards of "
          ++ suitToString returnCard.suit)⟩) := by
  constructor
  · by_cases hs : returnCard.suit = pulledCard.suit
    · by_cases hr : returnCard.rank = pulledCard.rank
      · simp [canReturnCard, hs, hr]
      · simp [canReturnCard, hs, hr]
    · by_cases h3 : 3 ≤ (currentHand.filter fun c => c.suit == returnCard.suit).length
      · have : ((currentHand.filter fun c => c.suit == returnCard.suit).length : Int)
            - 1 ≥ 2 := by
          omega
        simp [canReturnCard, hs, this, h3]
      · have : ¬ ((currentHand.filter fun c => c.suit == returnCard.suit).length : Int)
            - 1 ≥ 2 := by
          omega
        simp [canReturnCard, hs, this, h3]
  · intro hs h2
    have : ¬ ((currentHand.filter fun c => c.suit == returnCard.suit).length : Int)
        - 1 ≥ 2 := by
      omega
    simp [canReturnCard, hs, this]

/-- Witness for C6: returning the 9♥ against a pulled ♠ card from a hand with
only two hearts is rejected with the keep-at-least-2 reason. -/
theorem canReturnCard_boundary_witness :
    ((canReturnCard ⟨Suit.hearts, Rank.nine⟩ ⟨Suit.spades, Rank.A⟩
        [⟨Suit.hearts, Rank.nine⟩, ⟨Suit.hearts, Rank.K⟩]).valid = true ↔
      (Suit.hearts = Suit.spades ∨
        (Suit.hearts ≠ Suit.spades ∧
          3 ≤ ([⟨Suit.hearts, Rank.nine⟩, (⟨Suit.hearts, Rank.K⟩ : Card)].filter
            fun c => c.suit == Suit.hearts).length))) ∧
    (Suit.hearts ≠ Suit.spades →
      ([⟨Suit.hearts, Rank.nine⟩, (⟨Suit.hearts, Rank.K⟩ : Card)].filter
        fun c => c.suit == Suit.hearts).length ≤ 2 →
      canReturnCard ⟨Suit.hearts, Rank.nine⟩ ⟨Suit.spades, Rank.A⟩
          [⟨Suit.hearts, Rank.nine⟩, ⟨Suit.hearts, Rank.K⟩] =
        ⟨false, some ("Cannot return " ++ rankToString Rank.nine
          ++ suitToString Suit.hearts ++ ": must keep at least 2 cards of "
          ++ suitToString Suit.hearts)⟩) :=
  canReturnCard_boundary ⟨Suit.hearts, Rank.nine⟩ ⟨Suit.spades, Rank.A⟩
    [⟨Suit.hearts, Rank.nine⟩, ⟨Suit.hearts, Rank.K⟩]

theorem canReturnCard_valid_of_sameSuit (c p : Card) (hand : List Card)
    (h : c.suit = p.suit) : (canReturnCard c p hand).valid = true := by
  by_cases hr : c.rank = p.rank <;> simp [canReturnCard, h, hr]

theorem canReturnCard_valid_of_count (c p : Card) (hand : List Card)
    (hs : c.suit ≠ p.suit)
    (h3 : 3 ≤ (hand.filter fun x => x.suit == c.suit).length) :
    (canReturnCard c p hand).valid = true := by
  have h2 : ((hand.filter fun x => x.suit == c.suit).length : Int) - 1 ≥ 2 := by
    omega
  simp [canReturnCard, hs, h2]

/-- Sum of the per-suit filter lengths of a hand is the hand's length. -/
theorem suit_filter_length_sum (l : List Card) :
    (l.filter fun c => c.suit == Suit.spades).length
      + (l.filter fun c => c.suit == Suit.hearts).length
      + (l.filter fun c => c.suit == Suit.diamonds).length
      + (l.filter fun c => c.suit == Suit.clubs).length = l.length := by
  induction l with
  | nil => simp
  | cons x xs ih =>
    cases hx : x.suit <;> simp [List.filter_cons, hx] <;> omega

/-- C10: for every 10-card duplicate-free hand and every pulled card,
`getValidReturnCards` is non-empty: either the hand holds a card of the
pulled card's suit, which is a legal return, or the 10 cards lie in the 3
other suits and by pigeonhole some suit occurs at least 3 times, making any
of its cards a legal different-suit return. -/
theorem getValidReturnCards_nonempty (pulledCard : Card) (hand : List Card)
    (hlen : hand.length = 10) (hnd : hand.Nodup) :
    getValidReturnCards pulledCard hand ≠ [] := by
  by_cases hsame : ∃ c ∈ hand, c.suit = pulledCard.suit
  · obtain ⟨c, hc, hcs⟩ := hsame
    exact List.ne_nil_of_mem
      (List.mem_filter.2 ⟨hc, canReturnCard_valid_of_sameSuit c pulledCard hand hcs⟩)
  · have hzero : (hand.filter fun c => c.suit == pulledCard.suit).length = 0 := by
      rw [List.length_eq_zero, List.filter_eq_nil_iff]
      intro a ha
      simp only [beq_iff_eq]
      exact fun hc => hsame ⟨a, ha, hc⟩
    have hex : ∃ s : Suit, s ≠ pulledCard.suit ∧
        3 ≤ (hand.filter fun c => c.suit == s).length := by
      by_contra hcon
      push_neg at hcon
      have hsum := suit_filter_length_sum hand
      cases hps : pulledCard.suit
      · rw [hps] at hzero
        have hh := hcon Suit.hearts (by rw [hps]; decide)
        have hd := hcon Suit.diamonds (by rw [hps]; decide)
        have hc := hcon Suit.clubs (by rw [hps]; decide)
        omega
      · rw [hps] at hzero
        have hh := hcon Suit.spades (by rw [hps]; decide)
        have hd := hcon Suit.diamonds (by rw [hps]; decide)
        have hc := hcon Suit.clubs (by rw [hps]; decide)
        omega
      · rw [hps] at hzero
        have hh := hcon Suit.spades (by rw [hps]; decide)
        have hd := hcon Suit.hearts (by rw [hps]; decide)
        have hc := hcon Suit.clubs (by rw [hps]; decide)
        omega
      · rw [hps] at hzero
        have hh := hcon Suit.spades (by rw [hps]; decide)
        have hd := hcon Suit.hearts (by rw [hps]; decide)
        have hc := hcon Suit.diamonds (by rw [hps]; decide)
        omega
    obtain ⟨s, hsne, h3⟩ := hex
    have hne : hand.filter (fun c => c.suit == s) ≠ [] := by
      intro hnil
      rw [hnil] at h3
      simp at h3
    obtain ⟨c, hc⟩ := List.exists_mem_of_ne_nil _ hne
    have hmf := List.mem_filter.1 hc
    have hcs : c.suit = s := by simpa using hmf.2
    have hvalid : (canReturnCard c pulledCard hand).valid = true := by
      refine canReturnCard_valid_of_count c pulledCard hand ?_ ?_
      · rw [hcs]; exact hsne
      · rw [hcs]; exact h3
    exact List.ne_nil_of_mem (List.mem_filter.2 ⟨hmf.1, hvalid⟩)

/-- Witness for C10 on a concrete 10-card hand with no club (the pulled
card's suit). -/
theorem getValidReturnCards_nonempty_witness :
    getValidReturnCards ⟨Suit.clubs, Rank.A⟩
      [⟨Suit.spades, Rank.A⟩, ⟨Suit.spades, Rank.K⟩, ⟨Suit.spades, Rank.Q⟩,
       ⟨Suit.spades, Rank.J⟩, ⟨Suit.hearts, Rank.A⟩, ⟨Suit.hearts, Rank.K⟩,
       ⟨Suit.hearts, Rank.Q⟩, ⟨Suit.diamonds, Rank.A⟩, ⟨Suit.diamonds, Rank.K⟩,
       ⟨Suit.diamonds, Rank.Q⟩] ≠ [] :=
  getValidReturnCards_nonempty ⟨Suit.clubs, Rank.A⟩ _ (by decide) (by decide)

theorem pullLe_trans (d : Nat) (a b c : Puller) (h1 : pullLe d a b = true)
    (h2 : pullLe d b c = true) : pullLe d a c = true := by
  simp only [pullLe, decide_eq_true_eq, pullComparator] at h1 h2 ⊢
  split_ifs at h1 h2 ⊢ <;> omega

theorem pullLe_total (d : Nat) (a b : Puller) :
    (pullLe d a b || pullLe d b a) = true := by
  simp only [pullLe, Bool.or_eq_true, decide_eq_true_eq, pullComparator]
  split_ifs <;> omega

/-- C7: `calculatePullEligibility` classifies a seat with difference
`d = tricksWon - targetTricks` as an over-scorer with `extraTricks =
pullsRemaining = d` when `d > 0`, as an under-scorer when `d < 0`, and into
neither list when `d = 0`; the over-scorer list is sorted descending by
`extraTricks` with ties broken by ascending clockwise distance
`(position - dealerIndex + 3) % 3` from the dealer. -/
theorem calculatePullEligibility_spec (results : List PreviousRoundResult)
    (dealerIndex : Nat) :
    (∀ r ∈ results,
      (0 < r.tricksWon - r.targetTricks →
        (⟨r.position, r.tricksWon - r.targetTricks, r.tricksWon - r.targetTricks⟩ : Puller)
          ∈ (calculatePullEligibility results dealerIndex).1) ∧
      (r.tricksWon - r.targetTricks < 0 →
        (⟨r.position⟩ : UnderScorer) ∈ (calculatePullEligibility results dealerIndex).2)) ∧
    (∀ p ∈ (calculatePullEligibility results dealerIndex).1,
      0 < p.extraTricks ∧ p.pullsRemaining = p.extraTricks ∧
      ∃ r ∈ results, r.position = p.position ∧
        r.tricksWon - r.targetTricks = p.extraTricks) ∧
    (∀ u ∈ (calculatePullEligibility results dealerIndex).2,
      ∃ r ∈ results, r.position = u.position ∧ r.tricksWon - r.targetTricks < 0) ∧
    (calculatePullEligibility results dealerIndex).1.Pairwise (fun a b =>
      b.extraTricks < a.extraTricks ∨
        (a.extraTricks = b.extraTricks ∧
          ((a.position : Int) - (dealerIndex : Int) + 3).tmod 3 ≤
            ((b.position : Int) - (dealerIndex : Int) + 3).tmod 3)) := by
  have hperm := List.mergeSort_perm
    (results.filterMap fun r =>
      let diff := r.tricksWon - r.targetTricks
      if 0 < diff then some ⟨r.position, diff, diff⟩ else none)
    (pullLe dealerIndex)
  refine ⟨?_, ?_, ?_, ?_⟩
  · intro r hr
    constructor
    · intro hd
      refine hperm.mem_iff.2 (List.mem_filterMap.2 ⟨r, hr, ?_⟩)
      simp only [if_pos hd]
    · intro hd
      exact List.mem_filterMap.2 ⟨r, hr, by simp only [if_pos hd]⟩
  · intro p hp
    have hp' := hperm.mem_iff.1 hp
    obtain ⟨r, hr, heq⟩ := List.mem_filterMap.1 hp'
    by_cases hd : 0 < r.tricksWon - r.targetTricks
    · simp only [if_pos hd, Option.some.injEq] at heq
      subst heq
      exact ⟨hd, rfl, r, hr, rfl, rfl⟩
    · simp only [if_neg hd] at heq
      exact absurd heq (by simp)
  · intro u hu
    obtain ⟨r, hr, heq⟩ := List.mem_filterMap.1 hu
    by_cases hd : r.tricksWon - r.targetTricks < 0
    · simp only [if_pos hd, Option.some.injEq] at heq
      subst heq
      exact ⟨r, hr, rfl, hd⟩
    · simp only [if_neg hd] at heq
      exact absurd heq (by simp)
  · have hsorted := List.sorted_mergeSort
      (pullLe_trans dealerIndex) (pullLe_total dealerIndex)
      (results.filterMap fun r =>
        let diff := r.tricksWon - r.targetTricks
        if 0 < diff then some ⟨r.position, diff, diff⟩ else none)
    refine hsorted.imp ?_
    intro a b hab
    simp only [pullLe, decide_eq_true_eq, pullComparator] at hab
    split_ifs at hab with he
    · exact Or.inl (by omega)
    · exact Or.inr ⟨by omega, by omega⟩

/-- C4 counterexample: when a seat's updated score reaches 5 the handler
returns early, so the stored scores do not increase.  Seat 0 won 5 tricks
against target 2 with score 2: its score should become 5 by the claim, but
the returned players keep score 2 while the game still transitions to
`finished`. -/
theorem handleRoundEnd_counterexample :
    ((handleRoundEnd
        [⟨0, 5, 2, 2⟩, ⟨1, 3, 5, 0⟩, ⟨2, 2, 3, 0⟩]
        ⟨0, 3, "playing", "playing", none⟩).2.status = "finished") ∧
    (((handleRoundEnd
        [⟨0, 5, 2, 2⟩, ⟨1, 3, 5, 0⟩, ⟨2, 2, 3, 0⟩]
        ⟨0, 3, "playing", "playing", none⟩).1.map
        fun p => p.overachievementScore) = [2, 0, 0]) ∧
    ([2, 0, 0] ≠ [(2 : Int) + (5 - 2), 0 + (3 - 5), 0 + (2 - 3)]) := by
  refine ⟨rfl, rfl, by decide⟩

/-- C4 amended: at round end the handler computes every seat's updated score
`overachievementScore + (tricksWon - targetTricks)`.  If some seat's updated
score is at least 5, the game transitions to the terminal `finished` state
with the dealer index, the round number and the stored player rows (hence the
stored scores) unchanged; otherwise every seat's stored score increases by
exactly `tricksWon - targetTricks`, the dealer index becomes
`(dealerIndex + 1) % 3` and the round number increases by 1. -/
theorem handleRoundEnd_spec (players : List PlayerState) (room : RoomState) :
    ((∃ p ∈ players, 5 ≤ p.overachievementScore + (p.tricksWon - p.targetTricks)) →
      handleRoundEnd players room =
        (players, { room with status := "finished", dealingPhase := "finished" })) ∧
    ((∀ p ∈ players, p.overachievementScore + (p.tricksWon - p.targetTricks) < 5) →
      ((handleRoundEnd players room).1.length = players.length ∧
       (∀ i (hi : i < (handleRoundEnd players room).1.length)
           (hj : i < players.length),
         (handleRoundEnd players room).1.get ⟨i, hi⟩ =
           { players.get ⟨i, hj⟩ with overachievementScore :=
               (players.get ⟨i, hj⟩).overachievementScore
                 + ((players.get ⟨i, hj⟩).tricksWon
                   - (players.get ⟨i, hj⟩).targetTricks) }) ∧
       (handleRoundEnd players room).2.dealerIndex = (room.dealerIndex + 1) % 3 ∧
       (handleRoundEnd players room).2.roundNumber = room.roundNumber + 1 ∧
       (handleRoundEnd players room).2.status = "redistribution" ∧
       (handleRoundEnd players room).2.dealingPhase = "redistribution")) := by
  constructor
  · rintro ⟨p, hp, hscore⟩
    unfold handleRoundEnd
    cases hf : (players.map fun p =>
        { p with overachievementScore :=
            p.overachievementScore + (p.tricksWon - p.targetTricks) }).find?
        (fun p => decide (5 ≤ p.overachievementScore)) with
    | some w => rfl
    | none =>
      exfalso
      have hall := List.find?_eq_none.1 hf
      have hmem : ({ p with overachievementScore :=
          p.overachievementScore + (p.tricksWon - p.targetTricks) } : PlayerState) ∈
          players.map fun p =>
            { p with overachievementScore :=
                p.overachievementScore + (p.tricksWon - p.targetTricks) } :=
        List.mem_map_of_mem _ hp
      have := hall _ hmem
      simp only [decide_eq_true_eq] at this
      exact this hscore
  · intro hall
    unfold handleRoundEnd
    cases hf : (players.map fun p =>
        { p with overachievementScore :=
            p.overachievementScore + (p.tricksWon - p.targetTricks) }).find?
        (fun p => decide (5 ≤ p.overachievementScore)) with
    | some w =>
      exfalso
      have hw := List.find?_some hf
      have hwmem := List.mem_of_find?_eq_some hf
      obtain ⟨q, hq, hqeq⟩ := List.mem_map.1 hwmem
      have := hall q hq
      rw [← hqeq] at hw
      simp only [decide_eq_true_eq] at hw
      omega
    | none =>
      refine ⟨by simp, ?_, rfl, rfl, rfl, rfl⟩
      intro i hi hj
      simp [List.get_map]

theorem card_match_eq_iff (c a : Card) :
    (c.suit == a.suit && c.rank == a.rank) = true ↔ c = a := by
  obtain ⟨s1, r1⟩ := c
  obtain ⟨s2, r2⟩ := a
  simp [Card.mk.injEq]

theorem card_filter_ne_of_not_mem (l : List Card) (a : Card) (h : a ∉ l) :
    (l.filter fun c => !(c.suit == a.suit && c.rank == a.rank)) = l := by
  induction l with
  | nil => rfl
  | cons x xs ih =>
    have hxa : ¬ x = a := fun he => h (he ▸ List.mem_cons_self x xs)
    have hxs : a ∉ xs := fun hm => h (List.mem_cons_of_mem _ hm)
    rw [List.filter_cons, if_pos, ih hxs]
    simp only [Bool.not_eq_eq_eq_not, Bool.not_true, ← Bool.not_eq_true,
      card_match_eq_iff]
    simpa using hxa

theorem card_filter_ne_eq_erase (l : List Card) (a : Card) (h : l.count a = 1) :
    (l.filter fun c => !(c.suit == a.suit && c.rank == a.rank)) = l.erase a := by
  induction l with
  | nil => rfl
  | cons x xs ih =>
    by_cases hx : x = a
    · subst hx
      have hcount : xs.count x = 0 := by
        rw [List.count_cons_self] at h
        omega
      have hnotmem : x ∉ xs := List.count_eq_zero.1 hcount
      rw [List.filter_cons, if_neg, List.erase_cons_head,
        card_filter_ne_of_not_mem xs x hnotmem]
      simp [card_match_eq_iff]
    · have hcount : xs.count a = 1 := by
        rw [List.count_cons] at h
        simp only [beq_iff_eq] at h
        rw [if_neg hx] at h
        omega
      rw [List.filter_cons, if_pos, List.erase_cons_tail (by simpa using hx),
        ih hcount]
      simp only [Bool.not_eq_eq_eq_not, Bool.not_true, ← Bool.not_eq_true,
        card_match_eq_iff]
      simpa using hx

theorem card_count_one_mem (l : List Card) (a : Card) (hc : l.count a = 1) :
    a ∈ l := by
  by_contra h
  rw [List.count_eq_zero.2 h] at hc
  exact absurd hc (by decide)

/-- Removing one occurrence of `a` (present exactly once) and appending `b`
swaps `a` for `b` in the hand's multiset and keeps the hand size. -/
theorem swap_hand_spec (l : List Card) (a b : Card) (hc : l.count a = 1) :
    (((l.filter fun c => !(c.suit == a.suit && c.rank == a.rank)) ++ [b] :
        List Card) : Multiset Card) = (l : Multiset Card) - {a} + {b} ∧
    ((l.filter fun c => !(c.suit == a.suit && c.rank == a.rank)) ++ [b]).length
      = l.length := by
  have hmem : a ∈ l := card_count_one_mem l a hc
  rw [card_filter_ne_eq_erase l a hc]
  constructor
  · rw [Multiset.sub_singleton, Multiset.coe_erase, ← Multiset.coe_singleton,
      Multiset.coe_add]
  · have h1 := List.length_erase_of_mem hmem
    have h2 := List.length_pos_of_mem hmem
    rw [List.length_append, h1]
    simp only [List.length_singleton]
    omega

/-- C8: when the current puller submits a legal return card (in phase
`returning_card`, with a pulled card and a selected target, the puller and
target hands holding the returned and pulled card once), the swap and the
phase transition happen as described by `returnCardOutcomeSpec`. -/
theorem handleReturnCard_spec (cps : CardPullState) (hand targetHand : List Card)
    (returnCard pulledCard : Card) (currentPuller : Puller)
    (hphase : cps.phase = CardPullPhase.returning_card)
    (hpc : cps.pulledCard = some pulledCard)
    (htgt : cps.selectedTarget.isSome = true)
    (hcp : cps.pullers.get? cps.currentPullerIndex = some currentPuller)
    (hvalid : (canReturnCard returnCard pulledCard hand).valid = true)
    (hrcount : hand.count returnCard = 1)
    (hpcount : targetHand.count pulledCard = 1) :
    returnCardOutcomeSpec cps hand targetHand returnCard pulledCard currentPuller := by
  obtain ⟨tgt, htgtEq⟩ := Option.isSome_iff_exists.1 htgt
  have hlt : cps.currentPullerIndex < cps.pullers.length := by
    rcases List.get?_eq_some.1 hcp with ⟨h, _⟩
    exact h
  have hswapP := swap_hand_spec hand returnCard pulledCard hrcount
  have hswapT := swap_hand_spec targetHand pulledCard returnCard hpcount
  have hset : (cps.pullers.set cps.currentPullerIndex
      { currentPuller with
        pullsRemaining := currentPuller.pullsRemaining - 1 }).get?
      cps.currentPullerIndex =
      some { currentPuller with
        pullsRemaining := currentPuller.pullsRemaining - 1 } := by
    rw [List.get?_eq_getElem?]
    exact List.getElem?_set_self hlt
  unfold returnCardOutcomeSpec
  unfold handleReturnCard
  rw [hphase, hpc, htgtEq, hcp]
  simp only [hvalid, if_true]
  by_cases hpr : 0 < currentPuller.pullsRemaining - 1
  · rw [if_pos hpr]
    refine ⟨_, rfl, hswapP.1, hswapT.1, hswapP.2, hswapT.2, ?_, ?_, ?_, ?_⟩
    · intro st hst
      cases hst
      exact hset
    · intro _
      exact ⟨_, rfl, rfl, rfl, rfl, rfl, rfl⟩
    · intro hle _
      omega
    · intro hle _
      omega
  · rw [if_neg hpr]
    by_cases hnext : cps.currentPullerIndex + 1 <
        (cps.pullers.set cps.currentPullerIndex
          { currentPuller with
            pullsRemaining := currentPuller.pullsRemaining - 1 }).length
    · rw [if_pos hnext]
      rw [List.length_set] at hnext
      refine ⟨_, rfl, hswapP.1, hswapT.1, hswapP.2, hswapT.2, ?_, ?_, ?_, ?_⟩
      · intro st hst
        cases hst
        exact hset
      · intro h
        omega
      · intro _ _
        exact ⟨_, rfl, rfl, rfl, rfl, rfl, rfl⟩
      · intro _ hnot
        exact absurd hnext hnot
    · rw [if_neg hnext]
      rw [List.length_set] at hnext
      refine ⟨_, rfl, hswapP.1, hswapT.1, hswapP.2, hswapT.2, ?_, ?_, ?_, ?_⟩
      · intro st hst
        cases hst
      · intro h
        omega
      · intro _ hlt2
        exact absurd hlt2 hnext
      · intro _ _
        exact ⟨rfl, rfl⟩

/-- Witness for C8: the single puller (2 pulls remaining) legally returns the
king of hearts for the pulled ace of hearts; one pull remains, so the state
resets to selecting-target for the same puller. -/
theorem handleReturnCard_spec_witness :
    returnCardOutcomeSpec
      ⟨[⟨1, 2, 2⟩], [⟨2⟩], 0, CardPullPhase.returning_card, some 2,
        some ⟨Suit.hearts, Rank.A⟩, some 0⟩
      [⟨Suit.hearts, Rank.K⟩] [⟨Suit.hearts, Rank.A⟩]
      ⟨Suit.hearts, Rank.K⟩ ⟨Suit.hearts, Rank.A⟩ ⟨1, 2, 2⟩ :=
  handleReturnCard_spec _ _ _ _ _ _ rfl rfl rfl rfl (by decide) (by decide)
    (by decide)

theorem map_getD_range (l : List Card) :
    (List.range l.length).map (fun i => l.getD i default) = l := by
  induction l with
  | nil => simp
  | cons x xs ih =>
    rw [List.length_cons, List.range_succ_eq_map, List.map_cons, List.map_map]
    have hcomp : ((fun i => (x :: xs).getD i default) ∘ Nat.succ)
        = fun i => xs.getD i default := by
      funext i
      simp [Function.comp, List.getD_cons_succ]
    rw [hcomp, ih]
    rfl

theorem threeStageHand_eq_batchHand (deck : List Card) (p : Nat) :
    threeStageHand deck p = batchHand deck p := by
  have hdrop : ∀ (l : List Card) (n m : Nat),
      (l.drop n).getD m default = l.getD (n + m) default := by
    intro l n m
    rw [List.getD_eq_getElem?_getD, List.getD_eq_getElem?_getD, List.getElem?_drop]
  simp only [threeStageHand, firstFiveHand, nextThreeHand, finalTwoHand, batchHand]
  rw [show List.range 10 = [0, 1, 2, 3, 4, 5, 6, 7, 8, 9] from rfl,
    show List.range 5 = [0, 1, 2, 3, 4] from rfl,
    show List.range 3 = [0, 1, 2] from rfl,
    show List.range 2 = [0, 1] from rfl]
  simp only [List.map_cons, List.map_nil, List.cons_append, List.nil_append,
    List.append_nil, hdrop, List.cons.injEq, and_true]
  repeat' apply And.intro
  all_goals first
    | trivial
    | (congr 1 <;> omega)

theorem batch_hands_perm (deck : List Card) (hlen : deck.length = 30) :
    (batchHand deck 0 ++ batchHand deck 1 ++ batchHand deck 2).Perm deck := by
  have hb : ∀ p, batchHand deck p =
      ((List.range 10).map fun i => i * 3 + p).map fun i => deck.getD i default := by
    intro p
    rw [List.map_map]
    rfl
  have hd : (List.range 30).map (fun i => deck.getD i default) = deck := by
    rw [← hlen]
    exact map_getD_range deck
  rw [hb 0, hb 1, hb 2, ← List.map_append, ← List.map_append]
  have hidx : ((((List.range 10).map fun i => i * 3 + 0)
      ++ ((List.range 10).map fun i => i * 3 + 1))
      ++ ((List.range 10).map fun i => i * 3 + 2)).Perm (List.range 30) := by
    decide
  have hmap := hidx.map fun i => deck.getD i default
  rw [hd] at hmap
  exact hmap

/-- C9: for every ordering of the 30-card deck, the three-stage deal (5, then
3, then 2 cards per seat) gives every seat exactly the batch-deal hand (even
as a list, hence the same 10-card multiset), each hand has 10 cards, the
three hands together are a permutation of the whole deck, and no card lands
in two seats' hands. -/
theorem dealStages_spec (deck : List Card) (hperm : deck.Perm createDeck) :
    (∀ p, threeStageHand deck p = batchHand deck p) ∧
    (∀ p, (threeStageHand deck p).length = 10) ∧
    (threeStageHand deck 0 ++ threeStageHand deck 1 ++ threeStageHand deck 2).Perm
      deck ∧
    (∀ c : Card,
      (c ∈ threeStageHand deck 0 →
        c ∉ threeStageHand deck 1 ∧ c ∉ threeStageHand deck 2) ∧
      (c ∈ threeStageHand deck 1 → c ∉ threeStageHand deck 2)) := by
  have hlen : deck.length = 30 := by
    rw [hperm.length_eq]
    rfl
  have heq := fun p => threeStageHand_eq_batchHand deck p
  have hple : (threeStageHand deck 0 ++ threeStageHand deck 1
      ++ threeStageHand deck 2).Perm deck := by
    rw [heq 0, heq 1, heq 2]
    exact batch_hands_perm deck hlen
  refine ⟨heq, ?_, hple, ?_⟩
  · intro p
    rw [heq p]
    rfl
  · have hnd : ((threeStageHand deck 0 ++ threeStageHand deck 1)
        ++ threeStageHand deck 2).Nodup :=
      hple.nodup_iff.2 (hperm.nodup_iff.2 (by decide))
    obtain ⟨h01, h2nd, hdisj2⟩ := List.nodup_append.1 hnd
    obtain ⟨h0nd, h1nd, hdisj01⟩ := List.nodup_append.1 h01
    intro c
    exact ⟨fun hc0 => ⟨fun hc1 => hdisj01 hc0 hc1,
        fun hc2 => hdisj2 (List.mem_append_left _ hc0) hc2⟩,
      fun hc1 hc2 => hdisj2 (List.mem_append_right _ hc1) hc2⟩

/-- Witness for C9 on the unshuffled deck itself. -/
theorem dealStages_spec_witness :
    (∀ p, threeStageHand createDeck p = batchHand createDeck p) ∧
    (∀ p, (threeStageHand createDeck p).length = 10) ∧
    (threeStageHand createDeck 0 ++ threeStageHand createDeck 1
      ++ threeStageHand createDeck 2).Perm createDeck ∧
    (∀ c : Card,
      (c ∈ threeStageHand createDeck 0 →
        c ∉ threeStageHand createDeck 1 ∧ c ∉ threeStageHand createDeck 2) ∧
      (c ∈ threeStageHand createDeck 1 → c ∉ threeStageHand createDeck 2)) :=
  dealStages_spec createDeck (List.Perm.refl _)
